import Mathlib

set_option maxHeartbeats 1000000

open Classical

noncomputable section

namespace Cosmo

/-! Shallow embedding of the cosmology package.

Part 1 embeds cosmology/_numerical.py: the adaptive Bogacki-Shampine
3(2) integrator `rk23`, the Hermite `cubic` interpolator with the numpy
bracket search (`np.digitize`) and numpy integer indexing (negative
indices wrap, out-of-range indices fail), and the `antideriv` wrapper.
Machine floats are modelled by exact real arithmetic. -/

/-- State of the rk23 main loop: current position, value, step size and
the accumulated knot lists. -/
structure RKState where
  xn : ℝ
  yn : ℝ
  h : ℝ
  xs : List ℝ
  ys : List ℝ
  yps : List ℝ

/-- Step clamp at the start of each loop iteration:
`if xn + h > x1: h = x1 - xn`. -/
def clampH (x1 xn h : ℝ) : ℝ := if xn + h > x1 then x1 - xn else h

/-- Third-order estimate `yn + h*(c@k)` with `c = [2/9, 1/3, 4/9, 0]`
and stages `k = f(xn + a*h)`, `a = [0, 1/2, 3/4, 1]`. -/
def rkHigh (f : ℝ → ℝ) (xn yn h : ℝ) : ℝ :=
  yn + h * (2/9 * f (xn + 0*h) + 1/3 * f (xn + 1/2*h) + 4/9 * f (xn + 3/4*h) + 0 * f (xn + 1*h))

/-- Embedded second-order estimate `yn + h*(cs@k)` with
`cs = [7/24, 1/4, 1/3, 1/8]`. -/
def rkLow (f : ℝ → ℝ) (xn yn h : ℝ) : ℝ :=
  yn + h * (7/24 * f (xn + 0*h) + 1/4 * f (xn + 1/2*h) + 1/3 * f (xn + 3/4*h) + 1/8 * f (xn + 1*h))

/-- Tolerance `D0 = (atol + rtol*|yn|)/2`. -/
def rkD0 (atol rtol yn : ℝ) : ℝ := (atol + rtol * |yn|) / 2

/-- Observed local error `D1 = |ynp1 - ysnp1|` (uses the clamped step). -/
def rkD1 (f : ℝ → ℝ) (xn yn h : ℝ) : ℝ := |rkHigh f xn yn h - rkLow f xn yn h|

/-- One iteration of the rk23 while-loop body; the Bool reports whether
the step was accepted (`D0 >= D1`). On acceptance the knot
`(xn, yn, k[0])` is recorded, the position advances to the embedded
estimate and the step grows (`S*h*(D0/D1)**0.20`, doubling when
`D1 == 0`); on rejection only the step shrinks (`S*h*(D0/D1)**0.25`). -/
def rk23Step (f : ℝ → ℝ) (x1 atol rtol : ℝ) (s : RKState) : RKState × Bool :=
  let h := clampH x1 s.xn s.h
  let D0 := rkD0 atol rtol s.yn
  let D1 := rkD1 f s.xn s.yn h
  if D0 ≥ D1 then
    (⟨s.xn + h, rkLow f s.xn s.yn h,
      if D1 > 0 then 0.95 * h * (D0 / D1) ^ (0.20 : ℝ) else 2 * h,
      s.xs ++ [s.xn], s.ys ++ [s.yn], s.yps ++ [f (s.xn + 0*h)]⟩, true)
  else
    (⟨s.xn, s.yn, 0.95 * h * (D0 / D1) ^ (0.25 : ℝ), s.xs, s.ys, s.yps⟩, false)

/-- The while-loop `while xn < x1`, with explicit fuel (the Python loop
has no termination guarantee; traces below use sufficient fuel). -/
def rk23Go (f : ℝ → ℝ) (x1 atol rtol : ℝ) : ℕ → RKState → RKState
  | 0, s => s
  | fuel + 1, s =>
    if s.xn < x1 then rk23Go f x1 atol rtol fuel (rk23Step f x1 atol rtol s).1 else s

/-- `rk23(f, x0, x1, y0, h, atol, rtol)`: run the loop, then append the
final knot `(xn, yn, f(xn))`. -/
def rk23 (f : ℝ → ℝ) (x0 x1 y0 h atol rtol : ℝ) (fuel : ℕ) : List ℝ × List ℝ × List ℝ :=
  let s := rk23Go f x1 atol rtol fuel ⟨x0, y0, h, [], [], []⟩
  (s.xs ++ [s.xn], s.ys ++ [s.yn], s.yps ++ [f s.xn])

/-- `np.digitize(xi, bins)` for ascending bins: the number of leading
bins that are `<= xi`, i.e. the index of the first bin `> xi`. -/
def digitize (xi : ℝ) : List ℝ → ℕ
  | [] => 0
  | b :: bs => if b ≤ xi then digitize xi bs + 1 else 0

/-- numpy integer indexing of a 1-d array: `0 <= i < len` reads
directly, `-len <= i < 0` wraps to `i + len`, anything else raises
IndexError (modelled as `none`). -/
def npGet (l : List ℝ) (i : ℤ) : Option ℝ :=
  if 0 ≤ i ∧ i < (l.length : ℤ) then some (l.getD i.toNat 0)
  else if -(l.length : ℤ) ≤ i ∧ i < 0 then some (l.getD (i + l.length).toNat 0)
  else none

/-- `cubic(xi, x, y, yp)`: bracket search with `np.digitize`, then the
Hermite cubic `((a*t + b)*t + c)*t + d` on normalized `t`. -/
def cubic (xi : ℝ) (x y yp : List ℝ) : Option ℝ := do
  let i1 : ℤ := (digitize xi x : ℤ)
  let i0 : ℤ := i1 - 1
  let x0 ← npGet x i0
  let x1 ← npGet x i1
  let dx := x1 - x0
  let t := (xi - x0) / dx
  let f0 ← npGet y i0
  let f1 ← npGet y i1
  let fp0 := dx * (← npGet yp i0)
  let fp1 := dx * (← npGet yp i1)
  let a := 2*f0 - 2*f1 + fp0 + fp1
  let b := -3*f0 + 3*f1 - 2*fp0 - fp1
  let c := fp0
  let d := f0
  pure (((a*t + b)*t + c)*t + d)

/-- `np.diff`: consecutive differences. -/
def npDiff (l : List ℝ) : List ℝ := List.zipWith (fun a b => b - a) l l.tail

/-- Error message of the non-invertible branch of `antideriv`. -/
def msgNotInvertible : String := "antiderivative not invertible"

/-- The `inverse` branch of `antideriv`: knot arrays of the inverse
interpolant, or the ValueError when `np.diff(y)` is neither all
positive nor all negative. -/
def antiderivInverse (x y yp : List ℝ) : Except String (List ℝ × List ℝ × List ℝ) :=
  let dy := npDiff y
  if ∀ d ∈ dy, 0 < d then Except.ok (y, x, yp.map (fun v => 1 / v))
  else if ∀ d ∈ dy, d < 0 then
    Except.ok (y.reverse, x.reverse, (yp.map (fun v => 1 / v)).reverse)
  else Except.error msgNotInvertible

/-- `antideriv(f, x0, x1, h, c=c, atol, rtol, inverse)`: the returned
closures are determined by their knot arrays, which is what we model;
the forward knots together with the optional inverse knots. -/
def antideriv (f : ℝ → ℝ) (x0 x1 h c atol rtol : ℝ) (fuel : ℕ) (inverse : Bool) :
    Except String ((List ℝ × List ℝ × List ℝ) × Option (List ℝ × List ℝ × List ℝ)) :=
  let kn := rk23 f x0 x1 c h atol rtol fuel
  if inverse then
    (antiderivInverse kn.1 kn.2.1 kn.2.2).map (fun inv => (kn, some inv))
  else Except.ok (kn, none)

/-- Evaluating the forward closure returned by `antideriv` at a query
point `xi`: `cubic` against the rk23 knots. -/
def antiderivAt (f : ℝ → ℝ) (x0 x1 h c atol rtol : ℝ) (fuel : ℕ) (xi : ℝ) : Option ℝ :=
  let kn := rk23 f x0 x1 c h atol rtol fuel
  cubic xi kn.1 kn.2.1 kn.2.2

/-! Embedding of cosmology/_structure.py: the FFTLog-style mass
variance transform `sigma2_r`.  numpy float arithmetic is modelled by
exact real/complex arithmetic; `np.fft.rfft` and `np.fft.irfft` are
modelled by their defining discrete Fourier sums; `scipy.special.loggamma`
is modelled by a branch of log-Gamma (see `loggamma` below). -/

def PI : ℝ := Real.pi

/-- The module constant `SRPI = PI**0.5`. -/
def SRPI : ℝ := PI ^ (0.5 : ℝ)

/-- scipy.special.loggamma, modelled as `Complex.log ∘ Complex.Gamma`.
The source uses `loggamma` only under `exp` of it or of a difference of
two of them, and any two branches of log-Gamma differ by a multiple of
`2*pi*I`, which `exp` cancels; so this branch choice is observationally
equal to the scipy function in every use the source makes of it. -/
def loggamma (z : ℂ) : ℂ := Complex.log (Complex.Gamma z)

/-- The tophat window kernel `U` of `sigma2_r`. -/
def Utophat (x : ℂ) : ℂ :=
  9 * (SRPI : ℝ) * Complex.exp (loggamma ((1 + x)/2) - loggamma ((4 - x)/2)) /
    ((4 - x)^2 - 1)

/-- The gaussian window kernel `U` of `sigma2_r`. -/
def Ugauss (x : ℂ) : ℂ := Complex.exp (loggamma ((x + 1)/2)) / 2

/-- np.linspace over `[a, b]` with `num` points. -/
def linspace (a b : ℝ) (num : ℕ) : List ℝ :=
  if num = 1 then [a]
  else (List.range num).map (fun i => a + (b - a) * (i : ℝ) / ((num : ℝ) - 1))

/-- The frequency grid `y = np.linspace(0, 2*pi*(n//2)/(n*dlnk), n//2+1)`. -/
def freqs (n : ℕ) (dlnk : ℝ) : List ℝ :=
  linspace 0 (2 * PI * ((n / 2 : ℕ) : ℝ) / ((n : ℝ) * dlnk)) (n / 2 + 1)

/-- The transform coefficient array `u = np.exp(-1j*y*lnkr)*U(q + 1j*y)`. -/
def transformU (U : ℂ → ℂ) (q lnkr dlnk : ℝ) (n : ℕ) : List ℂ :=
  (freqs n dlnk).map (fun y =>
    Complex.exp (-Complex.I * (y : ℝ) * (lnkr : ℝ)) * U ((q : ℝ) + Complex.I * (y : ℝ)))

/-- np.round: round half to even. -/
def nround (a : ℝ) : ℝ :=
  if Int.fract a = 1/2 then (if Even ⌊a⌋ then (⌊a⌋ : ℝ) else (⌊a⌋ : ℝ) + 1)
  else ((round a : ℤ) : ℝ)

/-- The krgood branch: refine `lnkr` by
`lnkr + dlnk*(a - round(a))` where `a = angle(exp(-1j*y*lnkr)*U(q+1j*y))/pi`
at the Nyquist frequency `y = pi/dlnk`. -/
def lowringLnkr (U : ℂ → ℂ) (q dlnk lnkr : ℝ) : ℝ :=
  let y := PI / dlnk
  let u := Complex.exp (-Complex.I * (y : ℝ) * (lnkr : ℝ)) * U ((q : ℝ) + Complex.I * (y : ℝ))
  let a := u.arg / PI
  lnkr + dlnk * (a - nround a)

/-- `u.imag[-1] = 0` when `n` is even (`if not n & 1`). -/
def fixNyquist (n : ℕ) (u : List ℂ) : List ℂ :=
  if n % 2 = 0 then u.set (u.length - 1) ((u.getLastD 0).re : ℂ) else u

/-- np.fft.rfft of a real input of length `n`: the coefficients
`c_m = sum_j a_j exp(-2*pi*I*j*m/n)` for `m = 0..n//2`. -/
def rfft (a : List ℝ) : List ℂ :=
  (List.range (a.length / 2 + 1)).map (fun m =>
    ∑ j ∈ Finset.range a.length,
      ((a.getD j 0 : ℝ) : ℂ) * Complex.exp (-2 * (PI : ℝ) * Complex.I * (j : ℕ) * (m : ℕ) / (a.length : ℕ)))

/-- Hermitian extension of a half spectrum of length `n/2+1` to a full
spectrum of length `n`. -/
def hermExt (c : List ℂ) (n m : ℕ) : ℂ :=
  if m ≤ n / 2 then c.getD m 0 else (starRingEnd ℂ) (c.getD (n - m) 0)

/-- np.fft.irfft of a half spectrum, output length `n`: the real part
of the inverse discrete Fourier sum of the Hermitian extension. -/
def irfft (c : List ℂ) (n : ℕ) : List ℝ :=
  (List.range n).map (fun j =>
    ((∑ m ∈ Finset.range n,
      hermExt c n m * Complex.exp (2 * (PI : ℝ) * Complex.I * (m : ℕ) * (j : ℕ) / (n : ℕ))) / (n : ℕ)).re)

/-- np.isclose with the default tolerances `rtol=1e-5`, `atol=1e-8`. -/
def isclose (a b : ℝ) : Prop := |a - b| ≤ 1e-8 + 1e-5 * |b|

/-- `lnkc = (log(k[0]) + log(k[-1]))/2`. -/
def lnkcOf (k : List ℝ) : ℝ :=
  (Real.log (k.getD 0 0) + Real.log (k.getD (k.length - 1) 0)) / 2

/-- `dlnk = (log(k[-1]) - log(k[0]))/(n-1)`. -/
def dlnkOf (k : List ℝ) : ℝ :=
  (Real.log (k.getD (k.length - 1) 0) - Real.log (k.getD 0 0)) / ((k.length : ℝ) - 1)

/-- The grid validation `np.allclose(k, np.exp(lnkc + (j-jc)*dlnk))`. -/
def gridOK (k : List ℝ) : Prop :=
  ∀ j < k.length,
    isclose (k.getD j 0)
      (Real.exp (lnkcOf k + ((j : ℝ) - ((k.length : ℝ) - 1) / 2) * dlnkOf k))

def msgShape : String := "last axis of pk must agree with size of k"

def msgGrid : String := "k array not a logarithmic grid"

def msgBiasTophat : String := "bias error: tophat window requires -1 < q < 3"

def msgBiasGauss : String := "bias error: gaussian window requires q > -1"

def msgLowRing : String :=
  "unable to construct low-ringing transform, try odd number of points or different q"

def msgUnknownWindow (w : String) : String := "unknown window function: " ++ w

/-- The pipeline of `sigma2_r` after validation and after the
(possible) low-ringing adjustment: build the coefficients, run the
consistency check when `krgood`, fix the Nyquist coefficient for even
`n`, transform via real FFT, reverse, build `r` and normalize; the
optional derivative rescales the coefficient array `cm` by
`-(1+q+1j*y)` and repeats the inverse transform pipeline. -/
def sigma2post (U : ℂ → ℂ) (k pk : List ℝ) (q lnkr dlnk : ℝ) (krgood deriv : Bool) :
    Except String (List ℝ × List ℝ × Option (List ℝ)) :=
  let n := k.length
  let ys := freqs n dlnk
  let u := transformU U q lnkr dlnk n
  if krgood = true ∧ ¬ isclose (u.getLastD 0).im 0 then Except.error msgLowRing
  else
    let u2 := fixNyquist n u
    let cm := List.zipWith (· * ·) (rfft (List.zipWith (fun p kk => p * kk ^ (2 - q)) pk k)) u2
    let s2a := (irfft cm n).reverse
    let r := k.reverse.map (fun kk => Real.exp lnkr / kk)
    let s2 := List.zipWith (fun s rr => s / (2 * PI ^ 2) / rr ^ (1 + q)) s2a r
    if deriv then
      let cm2 := List.zipWith (fun cc y => cc * (-(1 + q + Complex.I * (y : ℝ)))) cm ys
      let ds2a := (irfft cm2 n).reverse
      let ds2 := List.zipWith (fun s rr => s / (2 * PI ^ 2) / rr ^ (1 + q)) ds2a r
      Except.ok (r, s2, some ds2)
    else Except.ok (r, s2, none)

/-- The core of `sigma2_r` after validation: the krgood adjustment of
`lnkr` followed by the transform pipeline. -/
def sigma2core (U : ℂ → ℂ) (k pk : List ℝ) (q lnkr dlnk : ℝ) (krgood deriv : Bool) :
    Except String (List ℝ × List ℝ × Option (List ℝ)) :=
  sigma2post U k pk q (if krgood then lowringLnkr U q dlnk lnkr else lnkr) dlnk krgood deriv

/-- `sigma2_r(k, pk, q=q, kr=kr, window=window, krgood=krgood,
deriv=deriv)`.  The model takes `k` as a one-dimensional list, so the
ndim TypeError of the source cannot arise here; the remaining
validation (shape agreement, log-grid check, window dispatch with its
bias-range checks) mirrors the source order. -/
def sigma2_r (k pk : List ℝ) (q kr : ℝ) (window : String) (krgood deriv : Bool) :
    Except String (List ℝ × List ℝ × Option (List ℝ)) :=
  if pk.length ≠ k.length then Except.error msgShape
  else if ¬ gridOK k then Except.error msgGrid
  else if window = "tophat" then
    if ¬ (-1 < q ∧ q < 3) then Except.error msgBiasTophat
    else sigma2core Utophat k pk q (Real.log kr) (dlnkOf k) krgood deriv
  else if window = "gaussian" then
    if ¬ (-1 < q) then Except.error msgBiasGauss
    else sigma2core Ugauss k pk q (Real.log kr) (dlnkOf k) krgood deriv
  else Except.error (msgUnknownWindow window)

/-! ## Helper lemmas and claim theorems -/

theorem rk23Go_succ (f : ℝ → ℝ) (x1 atol rtol : ℝ) (fuel : ℕ) (s : RKState) :
    rk23Go f x1 atol rtol (fuel + 1) s =
      if s.xn < x1 then rk23Go f x1 atol rtol fuel (rk23Step f x1 atol rtol s).1 else s := by
  rfl

theorem digitize_head_gt (xi : ℝ) (b : ℝ) (bs : List ℝ) (h : xi < b) :
    digitize xi (b :: bs) = 0 := by
  simp only [digitize, if_neg (not_le.mpr h)]

theorem digitize_getD_sorted (l : List ℝ) (hl : l.Chain' (· < ·)) (i : ℕ)
    (hi : i + 1 < l.length) : digitize (l.getD i 0) l = i + 1 := by
  induction l generalizing i with
  | nil => simp at hi
  | cons b bs ih =>
    rw [List.chain'_cons'] at hl
    obtain ⟨hb, hbs⟩ := hl
    cases i with
    | zero =>
      simp only [List.getD_cons_zero, digitize, if_pos le_rfl]
      congr 1
      cases bs with
      | nil => simp at hi
      | cons c cs =>
        have hbc : b < c := hb c rfl
        exact digitize_head_gt b c cs hbc
    | succ j =>
      have hj : j + 1 < bs.length := by simpa using hi
      have hmem : bs.getD j 0 ∈ bs := by
        rw [List.getD_eq_getElem bs 0 (by omega)]
        exact List.getElem_mem _
      have hble : b ≤ bs.getD j 0 := by
        have hpair : (b :: bs).Pairwise (· < ·) :=
          (List.chain'_iff_pairwise).mp (List.chain'_cons'.mpr ⟨hb, hbs⟩)
        exact le_of_lt ((List.pairwise_cons.mp hpair).1 _ hmem)
      simp only [List.getD_cons_succ, digitize, if_pos hble, ih hbs j hj]

theorem npGet_coe (l : List ℝ) (i : ℕ) (h : i < l.length) :
    npGet l (i : ℤ) = some (l.getD i 0) := by
  simp [npGet, h]

theorem npGet_zero (l : List ℝ) (h : 1 ≤ l.length) :
    npGet l 0 = some (l.getD 0 0) := by
  have := npGet_coe l 0 (by omega)
  simpa using this

theorem npGet_last (l : List ℝ) (h : 1 ≤ l.length) :
    npGet l (-1) = some (l.getD (l.length - 1) 0) := by
  have h1 : ¬ ((0:ℤ) ≤ -1 ∧ (-1:ℤ) < (l.length : ℤ)) := by omega
  have h2 : -(l.length : ℤ) ≤ -1 ∧ (-1:ℤ) < 0 := by omega
  rw [npGet, if_neg h1, if_pos h2]
  congr 1
  congr 1
  omega

theorem npDiff_neg_iff (y : List ℝ) :
    (∀ d ∈ npDiff y, d < 0) ↔ y.Chain' (· > ·) := by
  induction y with
  | nil => simp [npDiff]
  | cons a t ih =>
    cases t with
    | nil => simp [npDiff]
    | cons b t' =>
      simp only [npDiff, List.tail_cons, List.zipWith_cons_cons, List.mem_cons,
        List.chain'_cons] at *
      constructor
      · intro hall
        refine ⟨by linarith [hall (b - a) (Or.inl rfl)], ih.mp ?_⟩
        intro d hd
        exact hall d (Or.inr hd)
      · rintro ⟨hab, hch⟩ d hd
        rcases hd with h | h
        · rw [h]; linarith
        · exact ih.mpr hch d h

/-! Exact trace of `rk23` for the integrand `f(x) = x` on `[0, 1]` with
`h = 0.1` and the default tolerances.  Both Runge-Kutta estimates agree
exactly on every step (the method is exact for this integrand), so
`D1 = 0`, every step is accepted and `h` doubles each time. -/

theorem rk23_id_step1 : rk23Step (fun v => v) 1 1e-8 1e-8 ⟨0, 0, 1/10, [], [], []⟩ =
    (⟨1/10, 1/200, 1/5, [0], [0], [0]⟩, true) := by
  simp only [rk23Step, clampH, rkD0, rkD1, rkHigh, rkLow]; norm_num

theorem rk23_id_step2 : rk23Step (fun v => v) 1 1e-8 1e-8 ⟨1/10, 1/200, 1/5, [0], [0], [0]⟩ =
    (⟨3/10, 9/200, 2/5, [0, 1/10], [0, 1/200], [0, 1/10]⟩, true) := by
  simp only [rk23Step, clampH, rkD0, rkD1, rkHigh, rkLow]; norm_num
  positivity

theorem rk23_id_step3 : rk23Step (fun v => v) 1 1e-8 1e-8
    ⟨3/10, 9/200, 2/5, [0, 1/10], [0, 1/200], [0, 1/10]⟩ =
    (⟨7/10, 49/200, 4/5, [0, 1/10, 3/10], [0, 1/200, 9/200], [0, 1/10, 3/10]⟩, true) := by
  simp only [rk23Step, clampH, rkD0, rkD1, rkHigh, rkLow]; norm_num
  positivity

theorem rk23_id_step4 : rk23Step (fun v => v) 1 1e-8 1e-8
    ⟨7/10, 49/200, 4/5, [0, 1/10, 3/10], [0, 1/200, 9/200], [0, 1/10, 3/10]⟩ =
    (⟨1, 1/2, 3/5, [0, 1/10, 3/10, 7/10], [0, 1/200, 9/200, 49/200], [0, 1/10, 3/10, 7/10]⟩,
      true) := by
  simp only [rk23Step, clampH, rkD0, rkD1, rkHigh, rkLow]; norm_num
  positivity

theorem rk23_id_trace : rk23 (fun v => v) 0 1 0 (1/10) 1e-8 1e-8 5 =
    ([0, 1/10, 3/10, 7/10, 1], [0, 1/200, 9/200, 49/200, 1/2], [0, 1/10, 3/10, 7/10, 1]) := by
  have g1 : rk23Go (fun v => v) 1 1e-8 1e-8 (4+1) ⟨0, 0, 1/10, [], [], []⟩ =
      rk23Go (fun v => v) 1 1e-8 1e-8 4 ⟨1/10, 1/200, 1/5, [0], [0], [0]⟩ := by
    rw [rk23Go_succ, if_pos (by norm_num), rk23_id_step1]
  have g2 : rk23Go (fun v => v) 1 1e-8 1e-8 (3+1) ⟨1/10, 1/200, 1/5, [0], [0], [0]⟩ =
      rk23Go (fun v => v) 1 1e-8 1e-8 3 ⟨3/10, 9/200, 2/5, [0, 1/10], [0, 1/200], [0, 1/10]⟩ := by
    rw [rk23Go_succ, if_pos (by norm_num), rk23_id_step2]
  have g3 : rk23Go (fun v => v) 1 1e-8 1e-8 (2+1)
      ⟨3/10, 9/200, 2/5, [0, 1/10], [0, 1/200], [0, 1/10]⟩ =
      rk23Go (fun v => v) 1 1e-8 1e-8 2
        ⟨7/10, 49/200, 4/5, [0, 1/10, 3/10], [0, 1/200, 9/200], [0, 1/10, 3/10]⟩ := by
    rw [rk23Go_succ, if_pos (by norm_num), rk23_id_step3]
  have g4 : rk23Go (fun v => v) 1 1e-8 1e-8 (1+1)
      ⟨7/10, 49/200, 4/5, [0, 1/10, 3/10], [0, 1/200, 9/200], [0, 1/10, 3/10]⟩ =
      rk23Go (fun v => v) 1 1e-8 1e-8 1
        ⟨1, 1/2, 3/5, [0, 1/10, 3/10, 7/10], [0, 1/200, 9/200, 49/200],
          [0, 1/10, 3/10, 7/10]⟩ := by
    rw [rk23Go_succ, if_pos (by norm_num), rk23_id_step4]
  have g5 : rk23Go (fun v => v) 1 1e-8 1e-8 (0+1)
      ⟨1, 1/2, 3/5, [0, 1/10, 3/10, 7/10], [0, 1/200, 9/200, 49/200], [0, 1/10, 3/10, 7/10]⟩ =
      ⟨1, 1/2, 3/5, [0, 1/10, 3/10, 7/10], [0, 1/200, 9/200, 49/200],
        [0, 1/10, 3/10, 7/10]⟩ := by
    rw [rk23Go_succ, if_neg (by norm_num)]
  have g : rk23Go (fun v => v) 1 1e-8 1e-8 5 ⟨0, 0, 1/10, [], [], []⟩ =
      ⟨1, 1/2, 3/5, [0, 1/10, 3/10, 7/10], [0, 1/200, 9/200, 49/200], [0, 1/10, 3/10, 7/10]⟩ :=
    g1.trans (g2.trans (g3.trans (g4.trans g5)))
  simp only [rk23, g]
  simp

/-- Claim C8: in every execution of the rk23 loop, a step is accepted
iff `D0 >= D1` with `D0 = (atol + rtol*|yn|)/2` and
`D1 = |y_high - y_embedded|` (both computed from the clamped step); a
rejected step sets `h` to `S*h*(D0/D1)**0.25` with `S = 0.95`, strictly
decreasing `h` (for nonnegative tolerances and positive `h`) and leaving
the position, the value and the recorded knots unchanged; an accepted
step sets `h` to `S*h*(D0/D1)**0.20`, or to `2*h` when `D1 = 0`, and
advances to the embedded estimate. -/
theorem claim_C8_step_invariant (f : ℝ → ℝ) (x1 atol rtol : ℝ) (s : RKState) :
    ((rk23Step f x1 atol rtol s).2 = true ↔
      rkD0 atol rtol s.yn ≥ rkD1 f s.xn s.yn (clampH x1 s.xn s.h)) ∧
    (rkD1 f s.xn s.yn (clampH x1 s.xn s.h) > rkD0 atol rtol s.yn →
      (rk23Step f x1 atol rtol s).1 = ⟨s.xn, s.yn,
          0.95 * clampH x1 s.xn s.h *
            (rkD0 atol rtol s.yn / rkD1 f s.xn s.yn (clampH x1 s.xn s.h)) ^ (0.25 : ℝ),
          s.xs, s.ys, s.yps⟩ ∧
      (0 ≤ atol → 0 ≤ rtol → 0 < clampH x1 s.xn s.h →
        (rk23Step f x1 atol rtol s).1.h < clampH x1 s.xn s.h)) ∧
    (rkD0 atol rtol s.yn ≥ rkD1 f s.xn s.yn (clampH x1 s.xn s.h) →
      (rk23Step f x1 atol rtol s).1 = ⟨s.xn + clampH x1 s.xn s.h,
          rkLow f s.xn s.yn (clampH x1 s.xn s.h),
          if rkD1 f s.xn s.yn (clampH x1 s.xn s.h) > 0 then
            0.95 * clampH x1 s.xn s.h *
              (rkD0 atol rtol s.yn / rkD1 f s.xn s.yn (clampH x1 s.xn s.h)) ^ (0.20 : ℝ)
          else 2 * clampH x1 s.xn s.h,
          s.xs ++ [s.xn], s.ys ++ [s.yn],
          s.yps ++ [f (s.xn + 0 * clampH x1 s.xn s.h)]⟩) := by
  by_cases hc : rkD0 atol rtol s.yn ≥ rkD1 f s.xn s.yn (clampH x1 s.xn s.h)
  · refine ⟨by simp [rk23Step, hc], fun hgt => absurd hgt (not_lt.mpr hc),
      fun _ => by simp [rk23Step, hc]⟩
  · refine ⟨by simp [rk23Step, hc], fun hgt => ?_, fun hge => absurd hge hc⟩
    have hstep : (rk23Step f x1 atol rtol s).1 = ⟨s.xn, s.yn,
        0.95 * clampH x1 s.xn s.h *
          (rkD0 atol rtol s.yn / rkD1 f s.xn s.yn (clampH x1 s.xn s.h)) ^ (0.25 : ℝ),
        s.xs, s.ys, s.yps⟩ := by
      simp [rk23Step, hc]
    refine ⟨hstep, fun ha hr hh => ?_⟩
    rw [hstep]
    have hD0 : 0 ≤ rkD0 atol rtol s.yn :=
      div_nonneg (add_nonneg ha (mul_nonneg hr (abs_nonneg _))) (by norm_num)
    have hD1 : 0 < rkD1 f s.xn s.yn (clampH x1 s.xn s.h) := lt_of_le_of_lt hD0 hgt
    have hrat0 : 0 ≤ rkD0 atol rtol s.yn / rkD1 f s.xn s.yn (clampH x1 s.xn s.h) :=
      div_nonneg hD0 hD1.le
    have hrat1 : rkD0 atol rtol s.yn / rkD1 f s.xn s.yn (clampH x1 s.xn s.h) < 1 :=
      (div_lt_one hD1).mpr hgt
    have ht1 : (rkD0 atol rtol s.yn / rkD1 f s.xn s.yn (clampH x1 s.xn s.h)) ^ (0.25 : ℝ)
        ≤ 1 := Real.rpow_le_one hrat0 hrat1.le (by norm_num)
    have ht0 : 0 ≤ (rkD0 atol rtol s.yn /
        rkD1 f s.xn s.yn (clampH x1 s.xn s.h)) ^ (0.25 : ℝ) := Real.rpow_nonneg hrat0 _
    have hmul : clampH x1 s.xn s.h *
        ((rkD0 atol rtol s.yn / rkD1 f s.xn s.yn (clampH x1 s.xn s.h)) ^ (0.25 : ℝ)) ≤
        clampH x1 s.xn s.h * 1 := mul_le_mul_of_nonneg_left ht1 hh.le
    nlinarith [hmul, hh]

/-- Claim C8 witness: a concrete rejected step.  With `f(x) = x^2`,
state `(xn, yn, h) = (0, 0, 1)`, `x1 = 2` and tolerances `1e-8`, the
error `D1 = |1/3 - 3/8| = 1/24` exceeds `D0 = 5e-9`, so the step is
rejected, shrinks `h` below `1` and does not advance. -/
theorem claim_C8_witness :
    (0:ℝ) ≤ 1e-8 ∧ (0:ℝ) < clampH 2 0 1 ∧
    rkD1 (fun v => v^2) 0 0 (clampH 2 0 1) > rkD0 1e-8 1e-8 0 ∧
    ((rk23Step (fun v => v^2) 2 1e-8 1e-8 ⟨0, 0, 1, [], [], []⟩).2 = false ∧
      (rk23Step (fun v => v^2) 2 1e-8 1e-8 ⟨0, 0, 1, [], [], []⟩).1.h < clampH 2 0 1 ∧
      (rk23Step (fun v => v^2) 2 1e-8 1e-8 ⟨0, 0, 1, [], [], []⟩).1.xn = 0) := by
  have ha : (0:ℝ) ≤ 1e-8 := by norm_num
  have hh : (0:ℝ) < clampH 2 0 1 := by norm_num [clampH]
  have hgt : rkD1 (fun v => v^2) 0 0 (clampH 2 0 1) > rkD0 1e-8 1e-8 0 := by
    norm_num [rkD0, rkD1, rkHigh, rkLow, clampH]
    rw [abs_of_pos] <;> norm_num
  have main := claim_C8_step_invariant (fun v => v^2) 2 1e-8 1e-8 ⟨0, 0, 1, [], [], []⟩
  refine ⟨ha, hh, hgt, ?_, (main.2.1 hgt).2 ha ha hh, ?_⟩
  · have hiff := main.1
    rcases Bool.eq_false_or_eq_true (rk23Step (fun v => v^2) 2 1e-8 1e-8 ⟨0, 0, 1, [], [], []⟩).2
      with h | h
    · exact absurd (hiff.mp h) (not_le.mpr hgt)
    · exact h
  · rw [(main.2.1 hgt).1]

/-- Claim C9: the inverse branch of `antideriv` fails with the
ValueError exactly when `np.diff(y)` is neither all positive nor all
negative; in the decreasing case (at least two knots) the inverse
interpolant is built from the reversed values as abscissas, reversed
abscissas as values and reversed reciprocal derivatives, making its
abscissa axis strictly increasing; and `antideriv` with `inverse=True`
is exactly this construction applied to the rk23 knots. -/
theorem claim_C9_inverse :
    (∀ x y yp : List ℝ,
      ((antiderivInverse x y yp = Except.error msgNotInvertible) ↔
        ¬ (∀ d ∈ npDiff y, 0 < d) ∧ ¬ (∀ d ∈ npDiff y, d < 0)) ∧
      (2 ≤ y.length → (∀ d ∈ npDiff y, d < 0) →
        antiderivInverse x y yp =
          Except.ok (y.reverse, x.reverse, (yp.map (fun v => 1 / v)).reverse) ∧
        y.reverse.Chain' (· < ·))) ∧
    (∀ (f : ℝ → ℝ) (x0 x1 h c atol rtol : ℝ) (fuel : ℕ),
      antideriv f x0 x1 h c atol rtol fuel true =
        (antiderivInverse (rk23 f x0 x1 c h atol rtol fuel).1
            (rk23 f x0 x1 c h atol rtol fuel).2.1
            (rk23 f x0 x1 c h atol rtol fuel).2.2).map
          (fun inv => (rk23 f x0 x1 c h atol rtol fuel, some inv))) := by
  constructor
  · intro x y yp
    constructor
    · by_cases hp : ∀ d ∈ npDiff y, 0 < d
      · simp only [antiderivInverse]
        rw [if_pos hp]
        constructor
        · intro heq; exact absurd heq (by simp)
        · rintro ⟨hnp, -⟩; exact absurd hp hnp
      · by_cases hn : ∀ d ∈ npDiff y, d < 0
        · simp only [antiderivInverse]
          rw [if_neg hp, if_pos hn]
          constructor
          · intro heq; exact absurd heq (by simp)
          · rintro ⟨-, hnn⟩; exact absurd hn hnn
        · simp only [antiderivInverse]
          rw [if_neg hp, if_neg hn]
          exact ⟨fun _ => ⟨hp, hn⟩, fun _ => rfl⟩
    · intro hlen hneg
      have hp : ¬ ∀ d ∈ npDiff y, 0 < d := by
        obtain ⟨a, b, t, rfl⟩ : ∃ a b t, y = a :: b :: t := by
          match y, hlen with
          | a :: b :: t, _ => exact ⟨a, b, t, rfl⟩
        intro hpos
        have h1 : b - a < 0 := hneg _ (by simp [npDiff])
        have h2 : 0 < b - a := hpos _ (by simp [npDiff])
        linarith
      refine ⟨by simp only [antiderivInverse]; rw [if_neg hp, if_pos hneg], ?_⟩
      have hch : y.Chain' (· > ·) := (npDiff_neg_iff y).mp hneg
      rw [List.chain'_reverse]
      exact hch
  · intro f x0 x1 h c atol rtol fuel
    simp [antideriv]

/-- Claim C9 witness: decreasing values `y = [5, 3]` give the reversed
inverse knots and an increasing abscissa axis. -/
theorem claim_C9_witness :
    2 ≤ ([5, 3] : List ℝ).length ∧ (∀ d ∈ npDiff [5, 3], d < 0) ∧
    (antiderivInverse [1, 2] [5, 3] [7, 7] =
      Except.ok (([5, 3] : List ℝ).reverse, ([1, 2] : List ℝ).reverse,
        (([7, 7] : List ℝ).map (fun v => 1 / v)).reverse) ∧
      ([5, 3] : List ℝ).reverse.Chain' (· < ·)) := by
  have hlen : 2 ≤ ([5, 3] : List ℝ).length := by norm_num
  have hneg : ∀ d ∈ npDiff [5, 3], d < 0 := by
    intro d hd
    simp only [npDiff, List.tail_cons, List.zipWith_cons_cons, List.zipWith_nil_right,
      List.mem_singleton] at hd
    rw [hd]; norm_num
  exact ⟨hlen, hneg, (claim_C9_inverse.1 [1, 2] [5, 3] [7, 7]).2 hlen hneg⟩

/-- Claim C10: a query strictly below the first knot raises no error:
the bracket search returns `i1 = 0`, `i0 = -1`, negative indexing wraps
the left endpoint to the last knot, and the Hermite value computed from
the knot pair `(x[N-1], x[0])` is silently returned. -/
theorem claim_C10_below_first_knot (x y yp : List ℝ) (xi : ℝ) (hlen : 2 ≤ x.length)
    (hy : y.length = x.length) (hyp : yp.length = x.length)
    (hlt : xi < x.getD 0 0) :
    cubic xi x y yp =
      some (let x0 := x.getD (x.length - 1) 0
            let x1 := x.getD 0 0
            let dx := x1 - x0
            let t := (xi - x0) / dx
            let f0 := y.getD (y.length - 1) 0
            let f1 := y.getD 0 0
            let fp0 := dx * yp.getD (yp.length - 1) 0
            let fp1 := dx * yp.getD 0 0
            let a := 2*f0 - 2*f1 + fp0 + fp1
            let b := -3*f0 + 3*f1 - 2*fp0 - fp1
            ((a*t + b)*t + fp0)*t + f0) := by
  have hd0 : digitize xi x = 0 := by
    obtain ⟨b, bs, rfl⟩ : ∃ b bs, x = b :: bs := by
      cases x with
      | nil => simp at hlen
      | cons b bs => exact ⟨b, bs, rfl⟩
    exact digitize_head_gt xi b bs (by simpa using hlt)
  simp only [cubic, hd0, Nat.cast_zero, zero_sub]
  rw [npGet_last x (by omega), npGet_zero x (by omega),
      npGet_last y (by omega), npGet_zero y (by omega),
      npGet_last yp (by omega), npGet_zero yp (by omega)]
  simp only [Option.bind_eq_bind, Option.some_bind]
  rfl

/-- Claim C10 witness: querying `xi = 0` below the knots `x = [1, 2]`
silently returns the value `60` computed from the wrapped pair
`(x[1], x[0]) = (2, 1)`. -/
theorem claim_C10_witness :
    2 ≤ ([1, 2] : List ℝ).length ∧ (0:ℝ) < ([1, 2] : List ℝ).getD 0 0 ∧
    cubic 0 [1, 2] [10, 20] [0, 0] = some 60 := by
  refine ⟨by norm_num, by norm_num, ?_⟩
  have h := claim_C10_below_first_knot [1, 2] [10, 20] [0, 0] 0 (by norm_num) (by norm_num)
    (by norm_num) (by norm_num)
  rw [h]
  norm_num

/-- Claim C6 counterexample: the antiderivative closure for
`f(x) = x` on `[0, 1]` with `h = 0.1`, evaluated at the query point
`x = 1`, does not return any value: `np.digitize` maps the query at the
last knot to bracket index `N = 5`, and `x[5]` is an out-of-bounds read
(IndexError), so the claimed return of `0.5` never happens. -/
theorem claim_C6_counterexample :
    antiderivAt (fun v => v) 0 1 (1/10) 0 1e-8 1e-8 5 1 = none := by
  simp only [antiderivAt, rk23_id_trace]
  have hd : digitize 1 [0, 1/10, 3/10, 7/10, 1] = 5 := by
    simp only [digitize]
    norm_num
  simp only [cubic, hd, npGet]
  norm_num

/-- Claim C6 (amended): on the knot set produced for `f(x) = x` on
`[0, 1]` with `h = 0.1` and default tolerances, the antiderivative
closure returns exactly `x^2/2` at every query `0 <= x < 1` (so the
value `0.5` is attained only in the limit at the excluded right
endpoint, where the evaluation instead fails with an index error). -/
theorem claim_C6_antiderivative (xi : ℝ) (h0 : 0 ≤ xi) (h1 : xi < 1) :
    antiderivAt (fun v => v) 0 1 (1/10) 0 1e-8 1e-8 5 xi = some (xi^2/2) := by
  simp only [antiderivAt, rk23_id_trace]
  rcases lt_or_le xi (1/10) with hA | hA
  · have hd : digitize xi [0, 1/10, 3/10, 7/10, 1] = 1 := by
      simp only [digitize]
      rw [if_pos h0, if_neg (by linarith)]
    simp only [cubic, hd]
    norm_num [npGet, show ((0:ℤ)).toNat = 0 from rfl, show ((1:ℤ)).toNat = 1 from rfl]
    field_simp
    ring
  · rcases lt_or_le xi (3/10) with hB | hB
    · have hd : digitize xi [0, 1/10, 3/10, 7/10, 1] = 2 := by
        simp only [digitize]
        rw [if_pos h0, if_pos hA, if_neg (by linarith)]
      simp only [cubic, hd]
      norm_num [npGet, show ((1:ℤ)).toNat = 1 from rfl, show ((2:ℤ)).toNat = 2 from rfl]
      field_simp
      ring
    · rcases lt_or_le xi (7/10) with hC | hC
      · have hd : digitize xi [0, 1/10, 3/10, 7/10, 1] = 3 := by
          simp only [digitize]
          rw [if_pos h0, if_pos hA, if_pos hB, if_neg (by linarith)]
        simp only [cubic, hd]
        norm_num [npGet, show ((2:ℤ)).toNat = 2 from rfl, show ((3:ℤ)).toNat = 3 from rfl]
        field_simp
        ring
      · have hd : digitize xi [0, 1/10, 3/10, 7/10, 1] = 4 := by
          simp only [digitize]
          rw [if_pos h0, if_pos hA, if_pos hB, if_pos hC, if_neg (by linarith)]
        simp only [cubic, hd]
        norm_num [npGet, show ((3:ℤ)).toNat = 3 from rfl, show ((4:ℤ)).toNat = 4 from rfl]
        field_simp
        ring

/-- Claim C6 witness: at the interior query `x = 0.9` the closure
returns `0.405 = 0.9^2/2`, the exact antiderivative value (within any
`rtol`). -/
theorem claim_C6_witness :
    (0:ℝ) ≤ 9/10 ∧ (9/10:ℝ) < 1 ∧
    antiderivAt (fun v => v) 0 1 (1/10) 0 1e-8 1e-8 5 (9/10) = some (81/200) := by
  refine ⟨by norm_num, by norm_num, ?_⟩
  have h := claim_C6_antiderivative (9/10) (by norm_num) (by norm_num)
  rw [h]
  norm_num

/-- Claim C7 counterexample: on the knot set produced by the integrator
for `f(x) = x` on `[0, 1]` (abscissas `[0, 0.1, 0.3, 0.7, 1]`),
evaluating the cubic interpolator at the LAST knot abscissa returns no
value at all (IndexError from the bracket search), so the claim fails
for the last index. -/
theorem claim_C7_counterexample :
    cubic ((rk23 (fun v => v) 0 1 0 (1/10) 1e-8 1e-8 5).1.getD 4 0)
      (rk23 (fun v => v) 0 1 0 (1/10) 1e-8 1e-8 5).1
      (rk23 (fun v => v) 0 1 0 (1/10) 1e-8 1e-8 5).2.1
      (rk23 (fun v => v) 0 1 0 (1/10) 1e-8 1e-8 5).2.2 = none := by
  rw [rk23_id_trace]
  have hg : ([0, 1/10, 3/10, 7/10, 1] : List ℝ).getD 4 0 = 1 := by norm_num
  rw [hg]
  have hd : digitize 1 [0, 1/10, 3/10, 7/10, 1] = 5 := by
    simp only [digitize]
    norm_num
  simp only [cubic, hd, npGet]
  norm_num

/-- Claim C7 (amended): for every knot set with strictly increasing
abscissas (as the integrator produces) and equal-length value and
derivative arrays, evaluating the cubic interpolator at the abscissa of
knot `i` reproduces the value `y[i]` exactly, for every index except
the last; at the last knot the evaluation fails (see the
counterexample). -/
theorem claim_C7_knot_exactness (x y yp : List ℝ) (hx : x.Chain' (· < ·))
    (hy : y.length = x.length) (hyp : yp.length = x.length) (i : ℕ)
    (hi : i + 1 < x.length) :
    cubic (x.getD i 0) x y yp = some (y.getD i 0) := by
  have hds := digitize_getD_sorted x hx i hi
  have e0 : ((i + 1 : ℕ) : ℤ) - 1 = ((i : ℕ) : ℤ) := by push_cast; ring
  simp only [cubic, hds, e0]
  rw [npGet_coe x i (by omega), npGet_coe x (i+1) (by omega),
      npGet_coe y i (by omega), npGet_coe y (i+1) (by omega),
      npGet_coe yp i (by omega), npGet_coe yp (i+1) (by omega)]
  simp only [Option.bind_eq_bind, Option.some_bind]
  norm_num

/-- Claim C7 witness: the middle knot of `x = [1, 2, 4]` with values
`[10, 20, 30]` is reproduced exactly. -/
theorem claim_C7_witness :
    ([1, 2, 4] : List ℝ).Chain' (· < ·) ∧
    cubic 2 [1, 2, 4] [10, 20, 30] [7, 8, 9] = some 20 := by
  have hch : ([1, 2, 4] : List ℝ).Chain' (· < ·) := by
    simp only [List.chain'_cons, List.chain'_singleton, and_true]
    norm_num
  refine ⟨hch, ?_⟩
  have h := claim_C7_knot_exactness [1, 2, 4] [10, 20, 30] [7, 8, 9] hch (by norm_num)
    (by norm_num) 1 (by norm_num)
  have hg : ([1, 2, 4] : List ℝ).getD 1 0 = 2 := by norm_num
  have hv : ([10, 20, 30] : List ℝ).getD 1 0 = 20 := by norm_num
  rw [hg, hv] at h
  exact h

theorem getLastD_eq_getD (l : List ℂ) (d : ℂ) : l.getLastD d = l.getD (l.length - 1) d := by
  rw [List.getLastD_eq_getLast?, List.getLast?_eq_getElem?, List.getD_eq_getElem?_getD]

/-- Claim C1: the transform coefficient array is
`u_m = exp(-i*y_m*ln(kr)) * U(q + i*y_m)` for `m = 0..n//2` with
`y_m = 2*pi*m/(n*dlnk)` (the linspace grid equals this closed form);
the tophat and gaussian kernels are exactly the stated log-Gamma
formulas; and for even `n` the imaginary part of the last coefficient
is set to exactly `0` (real part and all other entries unchanged)
before the inverse transform, while odd `n` leaves `u` unchanged. -/
theorem claim_C1_transform_coefficients :
    (∀ (U : ℂ → ℂ) (q lnkr dlnk : ℝ) (n : ℕ),
      transformU U q lnkr dlnk n =
        (List.range (n / 2 + 1)).map (fun m =>
          Complex.exp (-Complex.I * ((2 * PI * (m : ℝ) / ((n : ℝ) * dlnk)) : ℝ) * (lnkr : ℝ)) *
            U ((q : ℝ) + Complex.I * ((2 * PI * (m : ℝ) / ((n : ℝ) * dlnk)) : ℝ)))) ∧
    (∀ x : ℂ, Utophat x =
      9 * (Real.sqrt PI : ℝ) *
        Complex.exp (loggamma ((1 + x)/2) - loggamma ((4 - x)/2)) / ((4 - x)^2 - 1)) ∧
    (∀ x : ℂ, Ugauss x = Complex.exp (loggamma ((x + 1)/2)) / 2) ∧
    (∀ (n : ℕ) (u : List ℂ), n % 2 = 0 → u ≠ [] →
      ((fixNyquist n u).getLastD 0).im = 0 ∧
      ((fixNyquist n u).getLastD 0).re = (u.getLastD 0).re ∧
      (fixNyquist n u).dropLast = u.dropLast ∧
      (fixNyquist n u).length = u.length) ∧
    (∀ (n : ℕ) (u : List ℂ), n % 2 = 1 → fixNyquist n u = u) := by
  refine ⟨?_, ?_, ?_, ?_, ?_⟩
  · intro U q lnkr dlnk n
    simp only [transformU, freqs, linspace]
    by_cases h1 : n / 2 + 1 = 1
    · have h0 : n / 2 = 0 := by omega
      rw [if_pos h1, h0]
      rw [show List.range 1 = [0] from rfl]
      simp only [List.map_cons, List.map_nil, Nat.cast_zero]
      norm_num
    · rw [if_neg h1, List.map_map]
      apply List.map_congr_left
      intro i hi
      simp only [Function.comp_apply]
      have hy : (0 : ℝ) + (2 * PI * ((n / 2 : ℕ) : ℝ) / ((n : ℝ) * dlnk) - 0) * (i : ℝ) /
          (((n / 2 + 1 : ℕ) : ℝ) - 1) = 2 * PI * (i : ℝ) / ((n : ℝ) * dlnk) := by
        have hnum : ((n / 2 + 1 : ℕ) : ℝ) - 1 = ((n / 2 : ℕ) : ℝ) := by push_cast; ring
        rw [hnum, zero_add, sub_zero]
        by_cases hD : ((n : ℝ) * dlnk) = 0
        · rw [hD, div_zero, div_zero, zero_mul, zero_div]
        · have hc : ((n / 2 : ℕ) : ℝ) ≠ 0 := by
            have h2 : 1 ≤ n / 2 := by omega
            exact Nat.cast_ne_zero.mpr (by omega)
          field_simp
          ring
      rw [hy]
  · intro x
    norm_num [Utophat, SRPI, Real.sqrt_eq_rpow]
  · intro x
    rfl
  · intro n u he hne
    have hlen0 : u.length ≠ 0 := by simpa using hne
    simp only [fixNyquist, if_pos he]
    have hlast : (u.set (u.length - 1) ((u.getLastD 0).re : ℂ)).getLastD 0 =
        ((u.getLastD 0).re : ℂ) := by
      rw [getLastD_eq_getD, List.length_set,
          List.getD_eq_getElem _ _ (by rw [List.length_set]; omega),
          List.getElem_set_self (by rw [List.length_set]; omega)]
    refine ⟨by rw [hlast]; simp, by rw [hlast]; simp, ?_, by simp⟩
    apply List.ext_getElem
    · simp
    · intro i h1 h2
      rw [List.getElem_dropLast, List.getElem_dropLast, List.getElem_set_ne]
      simp only [List.length_dropLast, List.length_set] at h1
      omega
  · intro n u ho
    rw [fixNyquist, if_neg (by omega)]

/-- Claim C1 witness: with `n = 4` (even) and the two-element
coefficient array `[1+2i, 3+4i]`, the Nyquist fix zeroes the last
imaginary part, keeps its real part and keeps the length. -/
theorem claim_C1_witness :
    4 % 2 = 0 ∧ (([⟨1, 2⟩, ⟨3, 4⟩] : List ℂ) ≠ []) ∧
    ((fixNyquist 4 [⟨1, 2⟩, ⟨3, 4⟩]).getLastD 0).im = 0 ∧
    ((fixNyquist 4 [⟨1, 2⟩, ⟨3, 4⟩]).getLastD 0).re =
      (([⟨1, 2⟩, ⟨3, 4⟩] : List ℂ).getLastD 0).re ∧
    (fixNyquist 4 [⟨1, 2⟩, ⟨3, 4⟩]).length = 2 := by
  have h := claim_C1_transform_coefficients.2.2.2.1 4 [⟨1, 2⟩, ⟨3, 4⟩] (by norm_num) (by simp)
  exact ⟨by norm_num, by simp, h.1, h.2.1, by rw [h.2.2.2]; simp⟩

/-- Claim C2: with `krgood=True` the pipeline first replaces `ln(kr)`
by `ln(kr) + dlnk*(a - round(a))` with
`a = angle(exp(-i*y*ln(kr))*U(q+i*y))/pi` at `y = pi/dlnk`, and then
fails with the low-ringing error exactly when the imaginary part of the
last transform coefficient is not approximately `0`; with
`krgood=False` the unadjusted `ln(kr)` is used and the low-ringing
error can never be raised.  The last conjunct ties this to `sigma2_r`
itself for validated tophat calls. -/
theorem claim_C2_lowring :
    (∀ (U : ℂ → ℂ) (k pk : List ℝ) (q lnkr dlnk : ℝ) (deriv : Bool),
      sigma2core U k pk q lnkr dlnk true deriv =
        sigma2post U k pk q (lowringLnkr U q dlnk lnkr) dlnk true deriv) ∧
    (∀ (U : ℂ → ℂ) (q dlnk lnkr : ℝ),
      lowringLnkr U q dlnk lnkr =
        lnkr + dlnk *
          ((Complex.exp (-Complex.I * ((PI / dlnk : ℝ) : ℝ) * (lnkr : ℝ)) *
              U ((q : ℝ) + Complex.I * ((PI / dlnk : ℝ) : ℝ))).arg / PI -
            nround ((Complex.exp (-Complex.I * ((PI / dlnk : ℝ) : ℝ) * (lnkr : ℝ)) *
              U ((q : ℝ) + Complex.I * ((PI / dlnk : ℝ) : ℝ))).arg / PI))) ∧
    (∀ (U : ℂ → ℂ) (k pk : List ℝ) (q lnkr dlnk : ℝ) (deriv : Bool),
      (sigma2post U k pk q lnkr dlnk true deriv = Except.error msgLowRing ↔
        ¬ isclose ((transformU U q lnkr dlnk k.length).getLastD 0).im 0)) ∧
    (∀ (U : ℂ → ℂ) (k pk : List ℝ) (q lnkr dlnk : ℝ) (deriv : Bool),
      sigma2core U k pk q lnkr dlnk false deriv =
        sigma2post U k pk q lnkr dlnk false deriv ∧
      sigma2post U k pk q lnkr dlnk false deriv ≠ Except.error msgLowRing) ∧
    (∀ (k pk : List ℝ) (q kr : ℝ) (krgood deriv : Bool),
      pk.length = k.length → gridOK k → -1 < q → q < 3 →
      sigma2_r k pk q kr "tophat" krgood deriv =
        sigma2post Utophat k pk q
          (if krgood then lowringLnkr Utophat q (dlnkOf k) (Real.log kr) else Real.log kr)
          (dlnkOf k) krgood deriv) := by
  refine ⟨?_, ?_, ?_, ?_, ?_⟩
  · intro U k pk q lnkr dlnk deriv
    rfl
  · intro U q dlnk lnkr
    rfl
  · intro U k pk q lnkr dlnk deriv
    simp only [sigma2post]
    split
    · rename_i hcond
      have hcl : ¬ isclose ((transformU U q lnkr dlnk k.length).getLastD 0).im 0 := by
        simpa using hcond
      exact ⟨fun _ => hcl, fun _ => rfl⟩
    · rename_i hcond
      have hcl : isclose ((transformU U q lnkr dlnk k.length).getLastD 0).im 0 := by
        by_contra hno
        exact hcond (by simpa using hno)
      constructor
      · intro he
        exfalso
        revert he
        cases deriv <;> simp
      · intro hn
        exact absurd hcl hn
  · intro U k pk q lnkr dlnk deriv
    refine ⟨rfl, ?_⟩
    simp only [sigma2post]
    split
    · rename_i hcond
      exact absurd hcond (by simp)
    · cases deriv <;> simp
  · intro k pk q kr krgood deriv hlen hgrid hq1 hq2
    rw [sigma2_r, if_neg (by simp [hlen]), if_neg (by simp [hgrid]), if_pos rfl,
        if_neg (not_not.mpr ⟨hq1, hq2⟩), sigma2core]

/-- A concrete valid logarithmic grid: `k = [exp(-1), 1, exp(1)]`
reconstructs exactly, so `np.allclose` holds. -/
theorem gridOK_example : gridOK [Real.exp (-1), 1, Real.exp 1] := by
  intro j hj
  simp only [List.length_cons, List.length_nil] at hj
  interval_cases j <;>
    simp only [lnkcOf, dlnkOf, isclose, List.length_cons, List.length_nil, List.getD] <;>
    norm_num [Real.log_exp] <;> positivity

/-- Claim C2 witness: a fully validated concrete tophat call with
`krgood=True` dispatches to the pipeline with the low-ringing-adjusted
`ln(kr)`. -/
theorem claim_C2_witness :
    ([1, 1, 1] : List ℝ).length = ([Real.exp (-1), 1, Real.exp 1] : List ℝ).length ∧
    gridOK [Real.exp (-1), 1, Real.exp 1] ∧ (-1 : ℝ) < 0 ∧ (0 : ℝ) < 3 ∧
    sigma2_r [Real.exp (-1), 1, Real.exp 1] [1, 1, 1] 0 1 "tophat" true false =
      sigma2post Utophat [Real.exp (-1), 1, Real.exp 1] [1, 1, 1] 0
        (lowringLnkr Utophat 0 (dlnkOf [Real.exp (-1), 1, Real.exp 1]) (Real.log 1))
        (dlnkOf [Real.exp (-1), 1, Real.exp 1]) true false := by
  refine ⟨by norm_num, gridOK_example, by norm_num, by norm_num, ?_⟩
  have h := claim_C2_lowring.2.2.2.2 [Real.exp (-1), 1, Real.exp 1] [1, 1, 1] 0 1 true false
    (by norm_num) gridOK_example (by norm_num) (by norm_num)
  exact h

/-- After validation, the only error the transform pipeline can itself
produce is the low-ringing consistency error. -/
theorem sigma2post_error_imp (U : ℂ → ℂ) (k pk : List ℝ) (q lnkr dlnk : ℝ)
    (krgood deriv : Bool) (msg : String)
    (h : sigma2post U k pk q lnkr dlnk krgood deriv = Except.error msg) :
    msg = msgLowRing := by
  revert h
  simp only [sigma2post]
  split
  · intro h
    exact (by simpa using h : msgLowRing = msg).symm
  · cases deriv <;> intro h <;> simp at h

/-- Claim C4: `sigma2_r` validates before any FFT work, in source
order: a shape error when the length of `pk` disagrees with `k` (the
one-dimensionality of `k` is enforced by the type of the model), then a
grid-format error when `k` does not reconstruct from
`(lnkc, dlnk, jc)` to floating tolerance, then, per window, a
bias-range error exactly when `q` lies outside the validity interval
(`-1 < q < 3` for tophat, `q > -1` for gaussian), and an
unknown-window error for any other window string.  No output is
produced in any of these cases. -/
theorem claim_C4_validation :
    (∀ (k pk : List ℝ) (q kr : ℝ) (window : String) (krgood deriv : Bool),
      pk.length ≠ k.length →
      sigma2_r k pk q kr window krgood deriv = Except.error msgShape) ∧
    (∀ (k pk : List ℝ) (q kr : ℝ) (window : String) (krgood deriv : Bool),
      pk.length = k.length → ¬ gridOK k →
      sigma2_r k pk q kr window krgood deriv = Except.error msgGrid) ∧
    (∀ (k pk : List ℝ) (q kr : ℝ) (krgood deriv : Bool),
      pk.length = k.length → gridOK k →
      (sigma2_r k pk q kr "tophat" krgood deriv = Except.error msgBiasTophat ↔
        ¬ (-1 < q ∧ q < 3))) ∧
    (∀ (k pk : List ℝ) (q kr : ℝ) (krgood deriv : Bool),
      pk.length = k.length → gridOK k →
      (sigma2_r k pk q kr "gaussian" krgood deriv = Except.error msgBiasGauss ↔
        ¬ (-1 < q))) ∧
    (∀ (k pk : List ℝ) (q kr : ℝ) (window : String) (krgood deriv : Bool),
      pk.length = k.length → gridOK k → window ≠ "tophat" → window ≠ "gaussian" →
      sigma2_r k pk q kr window krgood deriv = Except.error (msgUnknownWindow window)) := by
  refine ⟨?_, ?_, ?_, ?_, ?_⟩
  · intro k pk q kr window krgood deriv hne
    rw [sigma2_r, if_pos hne]
  · intro k pk q kr window krgood deriv hlen hng
    rw [sigma2_r, if_neg (by simp [hlen]), if_pos hng]
  · intro k pk q kr krgood deriv hlen hgrid
    constructor
    · intro herr
      by_cases hq : (-1 < q ∧ q < 3)
      · rw [sigma2_r, if_neg (by simp [hlen]), if_neg (by simp [hgrid]), if_pos rfl,
          if_neg (not_not.mpr hq)] at herr
        exact absurd (sigma2post_error_imp _ _ _ _ _ _ _ _ _ herr) (by decide)
      · exact hq
    · intro hq
      rw [sigma2_r, if_neg (by simp [hlen]), if_neg (by simp [hgrid]), if_pos rfl, if_pos hq]
  · intro k pk q kr krgood deriv hlen hgrid
    constructor
    · intro herr
      by_cases hq : (-1 < q)
      · rw [sigma2_r, if_neg (by simp [hlen]), if_neg (by simp [hgrid]),
          if_neg (by decide), if_pos rfl, if_neg (not_not.mpr hq)] at herr
        exact absurd (sigma2post_error_imp _ _ _ _ _ _ _ _ _ herr) (by decide)
      · exact hq
    · intro hq
      rw [sigma2_r, if_neg (by simp [hlen]), if_neg (by simp [hgrid]), if_neg (by decide),
        if_pos rfl, if_pos hq]
  · intro k pk q kr window krgood deriv hlen hgrid h3 h4
    rw [sigma2_r, if_neg (by simp [hlen]), if_neg (by simp [hgrid]), if_neg h3, if_neg h4]

/-- Claim C4 witness: on a concrete valid grid, `q = 3.0` with the
tophat window raises exactly the bias-range error. -/
theorem claim_C4_witness :
    ([1, 1, 1] : List ℝ).length = ([Real.exp (-1), 1, Real.exp 1] : List ℝ).length ∧
    gridOK [Real.exp (-1), 1, Real.exp 1] ∧ ¬ ((-1:ℝ) < 3 ∧ (3:ℝ) < 3) ∧
    sigma2_r [Real.exp (-1), 1, Real.exp 1] [1, 1, 1] 3 1 "tophat" true false =
      Except.error msgBiasTophat := by
  refine ⟨by norm_num, gridOK_example, by norm_num, ?_⟩
  exact (claim_C4_validation.2.2.1 [Real.exp (-1), 1, Real.exp 1] [1, 1, 1] 3 1 true false
    (by norm_num) gridOK_example).mpr (by norm_num)

/-- Dropping the optional third component, a call with `deriv=True`
agrees exactly with the call with `deriv=False`. -/
theorem sigma2post_proj (U : ℂ → ℂ) (k pk : List ℝ) (q lnkr dlnk : ℝ) (krgood : Bool) :
    (sigma2post U k pk q lnkr dlnk krgood true).map (fun t => (t.1, t.2.1)) =
      (sigma2post U k pk q lnkr dlnk krgood false).map (fun t => (t.1, t.2.1)) := by
  simp only [sigma2post]
  split
  · rfl
  · rfl

/-- Claim C5: `deriv=True` returns the same `r` and `sigma2` as the
`deriv=False` call (first conjunct, at the level of `sigma2_r`, with
the optional component projected away — in the pure model this is also
the statement that producing the derivative does not change the
already-produced `sigma2`); and the derivative output is the
`cm * -(1+q+i*y)` rescaling of the coefficient array pushed through the
same inverse-FFT/reverse/normalize pipeline. -/
theorem claim_C5_deriv :
    (∀ (k pk : List ℝ) (q kr : ℝ) (window : String) (krgood : Bool),
      (sigma2_r k pk q kr window krgood true).map (fun t => (t.1, t.2.1)) =
        (sigma2_r k pk q kr window krgood false).map (fun t => (t.1, t.2.1))) ∧
    (∀ (U : ℂ → ℂ) (k pk : List ℝ) (q lnkr dlnk : ℝ) (krgood : Bool) (r s2 ds2 : List ℝ),
      sigma2post U k pk q lnkr dlnk krgood true = Except.ok (r, s2, some ds2) →
      sigma2post U k pk q lnkr dlnk krgood false = Except.ok (r, s2, none) ∧
      ds2 = List.zipWith (fun s rr => s / (2 * PI ^ 2) / rr ^ (1 + q))
        ((irfft (List.zipWith (fun cc y => cc * (-(1 + (q : ℝ) + Complex.I * (y : ℝ))))
          (List.zipWith (· * ·) (rfft (List.zipWith (fun p kk => p * kk ^ (2 - q)) pk k))
            (fixNyquist k.length (transformU U q lnkr dlnk k.length)))
          (freqs k.length dlnk)) k.length).reverse)
        (k.reverse.map (fun kk => Real.exp lnkr / kk))) := by
  constructor
  · intro k pk q kr window krgood
    simp only [sigma2_r, sigma2core]
    repeat' split
    all_goals first
      | rfl
      | exact sigma2post_proj _ _ _ _ _ _ _
  · intro U k pk q lnkr dlnk krgood r s2 ds2 hok
    revert hok
    simp only [sigma2post]
    split
    · intro h
      simp at h
    · rename_i hcond
      intro h
      rw [if_pos trivial] at h
      simp only [Except.ok.injEq, Prod.mk.injEq, Option.some.injEq] at h
      obtain ⟨h1, h2, h3⟩ := h
      constructor
      · rw [if_neg (by simp : ¬ (false = true)), h2, h1]
      · exact h3.symm

/-- Claim C5 witness: a concrete successful call (`krgood=False`, so
the consistency check is skipped) with `deriv=True` returns exactly the
same `r` and `sigma2` as the `deriv=False` call, plus the rescaled
derivative array. -/
theorem claim_C5_witness :
    sigma2post Utophat [Real.exp (-1), 1, Real.exp 1] [1, 1, 1] 0 0 1 false true =
      Except.ok
        (([Real.exp (-1), 1, Real.exp 1] : List ℝ).reverse.map (fun kk => Real.exp 0 / kk),
          List.zipWith (fun s rr => s / (2 * PI ^ 2) / rr ^ (1 + (0:ℝ)))
            ((irfft (List.zipWith (· * ·)
                (rfft (List.zipWith (fun p kk => p * kk ^ (2 - (0:ℝ)))
                  ([1, 1, 1] : List ℝ) [Real.exp (-1), 1, Real.exp 1]))
                (fixNyquist ([Real.exp (-1), 1, Real.exp 1] : List ℝ).length
                  (transformU Utophat 0 0 1 ([Real.exp (-1), 1, Real.exp 1] : List ℝ).length)))
              ([Real.exp (-1), 1, Real.exp 1] : List ℝ).length).reverse)
            (([Real.exp (-1), 1, Real.exp 1] : List ℝ).reverse.map (fun kk => Real.exp 0 / kk)),
          some (List.zipWith (fun s rr => s / (2 * PI ^ 2) / rr ^ (1 + (0:ℝ)))
            ((irfft (List.zipWith (fun cc y => cc * (-(1 + ((0:ℝ) : ℝ) + Complex.I * (y : ℝ))))
                (List.zipWith (· * ·)
                  (rfft (List.zipWith (fun p kk => p * kk ^ (2 - (0:ℝ)))
                    ([1, 1, 1] : List ℝ) [Real.exp (-1), 1, Real.exp 1]))
                  (fixNyquist ([Real.exp (-1), 1, Real.exp 1] : List ℝ).length
                    (transformU Utophat 0 0 1 ([Real.exp (-1), 1, Real.exp 1] : List ℝ).length)))
                (freqs ([Real.exp (-1), 1, Real.exp 1] : List ℝ).length 1))
              ([Real.exp (-1), 1, Real.exp 1] : List ℝ).length).reverse)
            (([Real.exp (-1), 1, Real.exp 1] : List ℝ).reverse.map
              (fun kk => Real.exp 0 / kk)))) ∧
    sigma2post Utophat [Real.exp (-1), 1, Real.exp 1] [1, 1, 1] 0 0 1 false false =
      Except.ok
        (([Real.exp (-1), 1, Real.exp 1] : List ℝ).reverse.map (fun kk => Real.exp 0 / kk),
          List.zipWith (fun s rr => s / (2 * PI ^ 2) / rr ^ (1 + (0:ℝ)))
            ((irfft (List.zipWith (· * ·)
                (rfft (List.zipWith (fun p kk => p * kk ^ (2 - (0:ℝ)))
                  ([1, 1, 1] : List ℝ) [Real.exp (-1), 1, Real.exp 1]))
                (fixNyquist ([Real.exp (-1), 1, Real.exp 1] : List ℝ).length
                  (transformU Utophat 0 0 1 ([Real.exp (-1), 1, Real.exp 1] : List ℝ).length)))
              ([Real.exp (-1), 1, Real.exp 1] : List ℝ).length).reverse)
            (([Real.exp (-1), 1, Real.exp 1] : List ℝ).reverse.map (fun kk => Real.exp 0 / kk)),
          none) := by
  have hok : sigma2post Utophat [Real.exp (-1), 1, Real.exp 1] [1, 1, 1] 0 0 1 false true =
      Except.ok
        (([Real.exp (-1), 1, Real.exp 1] : List ℝ).reverse.map (fun kk => Real.exp 0 / kk),
          List.zipWith (fun s rr => s / (2 * PI ^ 2) / rr ^ (1 + (0:ℝ)))
            ((irfft (List.zipWith (· * ·)
                (rfft (List.zipWith (fun p kk => p * kk ^ (2 - (0:ℝ)))
                  ([1, 1, 1] : List ℝ) [Real.exp (-1), 1, Real.exp 1]))
                (fixNyquist ([Real.exp (-1), 1, Real.exp 1] : List ℝ).length
                  (transformU Utophat 0 0 1 ([Real.exp (-1), 1, Real.exp 1] : List ℝ).length)))
              ([Real.exp (-1), 1, Real.exp 1] : List ℝ).length).reverse)
            (([Real.exp (-1), 1, Real.exp 1] : List ℝ).reverse.map (fun kk => Real.exp 0 / kk)),
          some (List.zipWith (fun s rr => s / (2 * PI ^ 2) / rr ^ (1 + (0:ℝ)))
            ((irfft (List.zipWith (fun cc y => cc * (-(1 + ((0:ℝ) : ℝ) + Complex.I * (y : ℝ))))
                (List.zipWith (· * ·)
                  (rfft (List.zipWith (fun p kk => p * kk ^ (2 - (0:ℝ)))
                    ([1, 1, 1] : List ℝ) [Real.exp (-1), 1, Real.exp 1]))
                  (fixNyquist ([Real.exp (-1), 1, Real.exp 1] : List ℝ).length
                    (transformU Utophat 0 0 1 ([Real.exp (-1), 1, Real.exp 1] : List ℝ).length)))
                (freqs ([Real.exp (-1), 1, Real.exp 1] : List ℝ).length 1))
              ([Real.exp (-1), 1, Real.exp 1] : List ℝ).length).reverse)
            (([Real.exp (-1), 1, Real.exp 1] : List ℝ).reverse.map
              (fun kk => Real.exp 0 / kk)))) := by
    simp only [sigma2post]
    split
    · rename_i hcond2
      exact absurd hcond2 (by simp)
    · rfl
  exact ⟨hok, (claim_C5_deriv.2 Utophat [Real.exp (-1), 1, Real.exp 1] [1, 1, 1] 0 0 1
    false _ _ _ hok).1⟩

/-- The reversed reciprocal grid `C/k` (with `C > 0`) of a strictly
ascending positive grid is strictly ascending. -/
theorem chain_reciprocal_reverse (k : List ℝ) (C : ℝ) (hC : 0 < C)
    (hk : k.Chain' (· < ·)) (hpos : ∀ a ∈ k, 0 < a) :
    (k.reverse.map (fun kk => C / kk)).Chain' (· < ·) := by
  rw [List.chain'_iff_get]
  intro i hi
  simp only [List.length_map, List.length_reverse] at hi
  have hi1 : i < (List.map (fun kk => C / kk) k.reverse).length := by
    simp only [List.length_map, List.length_reverse]; omega
  have hi2 : i + 1 < (List.map (fun kk => C / kk) k.reverse).length := by
    simp only [List.length_map, List.length_reverse]; omega
  rw [List.get_eq_getElem, List.get_eq_getElem, List.getElem_map, List.getElem_map,
    List.getElem_reverse, List.getElem_reverse]
  have hadj := (List.chain'_iff_get.mp hk) (k.length - 1 - (i + 1)) (by omega)
  rw [List.get_eq_getElem, List.get_eq_getElem] at hadj
  have hidx : k.length - 1 - (i + 1) + 1 = k.length - 1 - i := by omega
  simp_rw [hidx] at hadj
  exact div_lt_div_of_pos_left hC (hpos _ (List.getElem_mem _)) hadj

/-- Facts about the payload of every successful run of the transform
pipeline. -/
theorem sigma2post_ok_facts (U : ℂ → ℂ) (k pk : List ℝ) (q lnkr dlnk : ℝ)
    (krgood deriv : Bool) (r s2 : List ℝ) (d : Option (List ℝ))
    (hok : sigma2post U k pk q lnkr dlnk krgood deriv = Except.ok (r, s2, d)) :
    (r = k.reverse.map (fun kk => Real.exp lnkr / kk) ∧
     s2 = List.zipWith (fun s rr => s / (2 * PI ^ 2) / rr ^ (1 + q))
       ((irfft (List.zipWith (· * ·)
           (rfft (List.zipWith (fun p kk => p * kk ^ (2 - q)) pk k))
           (fixNyquist k.length (transformU U q lnkr dlnk k.length)))
         k.length).reverse) r ∧
     r.length = k.length ∧ s2.length = k.length ∧
     (∀ i < k.length, k.getD (k.length - 1 - i) 0 ≠ 0 →
       r.getD i 0 * k.getD (k.length - 1 - i) 0 = Real.exp lnkr) ∧
     (k.Chain' (· < ·) → (∀ a ∈ k, 0 < a) → r.Chain' (· < ·))) := by
  have hr : r = k.reverse.map (fun kk => Real.exp lnkr / kk) ∧
      s2 = List.zipWith (fun s rr => s / (2 * PI ^ 2) / rr ^ (1 + q))
        ((irfft (List.zipWith (· * ·)
            (rfft (List.zipWith (fun p kk => p * kk ^ (2 - q)) pk k))
            (fixNyquist k.length (transformU U q lnkr dlnk k.length)))
          k.length).reverse) r := by
    revert hok
    simp only [sigma2post]
    split
    · intro h
      simp at h
    · cases deriv
      · intro h
        rw [if_neg (by simp : ¬ (false = true))] at h
        simp only [Except.ok.injEq, Prod.mk.injEq] at h
        obtain ⟨h1, h2, -⟩ := h
        refine ⟨h1.symm, ?_⟩
        rw [← h1, ← h2]
      · intro h
        rw [if_pos (rfl : (true : Bool) = true)] at h
        simp only [Except.ok.injEq, Prod.mk.injEq, Option.some.injEq] at h
        obtain ⟨h1, h2, -⟩ := h
        refine ⟨h1.symm, ?_⟩
        rw [← h1, ← h2]
  obtain ⟨hr1, hr2⟩ := hr
  refine ⟨hr1, hr2, ?_, ?_, ?_, ?_⟩
  · rw [hr1]; simp
  · rw [hr2, hr1]
    simp [irfft]
  · intro i hi hne
    have hrev : i < k.reverse.length := by simpa using hi
    have hgd : r.getD i 0 = Real.exp lnkr / k.getD (k.length - 1 - i) 0 := by
      rw [hr1, List.getD_eq_getElem _ _ (by simpa using hi), List.getElem_map,
        List.getElem_reverse, List.getD_eq_getElem _ _ (by omega)]
    rw [hgd]
    exact div_mul_cancel₀ _ hne
  · intro hch hpos
    rw [hr1]
    exact chain_reciprocal_reverse k (Real.exp lnkr) (Real.exp_pos lnkr) hch hpos

/-- A validated tophat call dispatches to the pipeline with the
(possibly adjusted) log shift. -/
theorem sigma2_r_tophat_dispatch (k pk : List ℝ) (q kr : ℝ) (krgood deriv : Bool)
    (hlen : pk.length = k.length) (hgrid : gridOK k) (hq1 : -1 < q) (hq2 : q < 3) :
    sigma2_r k pk q kr "tophat" krgood deriv =
      sigma2post Utophat k pk q
        (if krgood then lowringLnkr Utophat q (dlnkOf k) (Real.log kr) else Real.log kr)
        (dlnkOf k) krgood deriv := by
  rw [sigma2_r, if_neg (by simp [hlen]), if_neg (by simp [hgrid]), if_pos rfl,
      if_neg (not_not.mpr ⟨hq1, hq2⟩), sigma2core]

/-- Claim C3: every successful run of the transform pipeline returns
`sigma2` equal to the reversed inverse real FFT of
`rfft(pk*k^(2-q)) * u`, divided by `2*pi^2` and by `r^(1+q)`, and the
radius grid `r = exp(lnkr)/reverse(k)`; `r` and `sigma2` have length
`N = len(k)`; `r_i * k_(N-1-i) = exp(lnkr)` for every `i`, where
`lnkr` is the effective (possibly krgood-adjusted) log shift; for
`krgood=False` calls of `sigma2_r` with `kr > 0` the product is exactly
the input `kr` (second conjunct); and `r` is strictly ascending
whenever `k` is a strictly ascending positive grid (as every
numpy-validated grid is). -/
theorem claim_C3_output :
    (∀ (U : ℂ → ℂ) (k pk : List ℝ) (q lnkr dlnk : ℝ) (krgood deriv : Bool)
      (r s2 : List ℝ) (d : Option (List ℝ)),
      sigma2post U k pk q lnkr dlnk krgood deriv = Except.ok (r, s2, d) →
      (r = k.reverse.map (fun kk => Real.exp lnkr / kk) ∧
       s2 = List.zipWith (fun s rr => s / (2 * PI ^ 2) / rr ^ (1 + q))
         ((irfft (List.zipWith (· * ·)
             (rfft (List.zipWith (fun p kk => p * kk ^ (2 - q)) pk k))
             (fixNyquist k.length (transformU U q lnkr dlnk k.length)))
           k.length).reverse) r ∧
       r.length = k.length ∧ s2.length = k.length ∧
       (∀ i < k.length, k.getD (k.length - 1 - i) 0 ≠ 0 →
         r.getD i 0 * k.getD (k.length - 1 - i) 0 = Real.exp lnkr) ∧
       (k.Chain' (· < ·) → (∀ a ∈ k, 0 < a) → r.Chain' (· < ·)))) ∧
    (∀ (k pk : List ℝ) (q kr : ℝ) (deriv : Bool) (r s2 : List ℝ) (d : Option (List ℝ)),
      0 < kr → pk.length = k.length → gridOK k → -1 < q → q < 3 →
      sigma2_r k pk q kr "tophat" false deriv = Except.ok (r, s2, d) →
      ∀ i < k.length, k.getD (k.length - 1 - i) 0 ≠ 0 →
        r.getD i 0 * k.getD (k.length - 1 - i) 0 = kr) := by
  constructor
  · intro U k pk q lnkr dlnk krgood deriv r s2 d hok
    exact sigma2post_ok_facts U k pk q lnkr dlnk krgood deriv r s2 d hok
  · intro k pk q kr deriv r s2 d hkr hlen hgrid hq1 hq2 hok
    rw [sigma2_r_tophat_dispatch k pk q kr false deriv hlen hgrid hq1 hq2] at hok
    intro i hi hne
    have h := (sigma2post_ok_facts Utophat k pk q (Real.log kr) (dlnkOf k) false deriv r s2 d
      (by exact hok)).2.2.2.2.1 i hi hne
    rw [h, Real.exp_log hkr]

/-- Claim C3 witness: a concrete successful call on the ascending
positive grid `[exp(-1), 1, exp(1)]`: the outputs have length 3, the
radius grid is strictly ascending, and `r_0 * k_2 = exp(lnkr)`. -/
theorem claim_C3_witness :
    sigma2post Utophat [Real.exp (-1), 1, Real.exp 1] [1, 1, 1] 0 0 1 false false =
      Except.ok
        (([Real.exp (-1), 1, Real.exp 1] : List ℝ).reverse.map (fun kk => Real.exp 0 / kk),
          List.zipWith (fun s rr => s / (2 * PI ^ 2) / rr ^ (1 + (0:ℝ)))
            ((irfft (List.zipWith (· * ·)
                (rfft (List.zipWith (fun p kk => p * kk ^ (2 - (0:ℝ)))
                  ([1, 1, 1] : List ℝ) [Real.exp (-1), 1, Real.exp 1]))
                (fixNyquist ([Real.exp (-1), 1, Real.exp 1] : List ℝ).length
                  (transformU Utophat 0 0 1 ([Real.exp (-1), 1, Real.exp 1] : List ℝ).length)))
              ([Real.exp (-1), 1, Real.exp 1] : List ℝ).length).reverse)
            (([Real.exp (-1), 1, Real.exp 1] : List ℝ).reverse.map (fun kk => Real.exp 0 / kk)),
          none) ∧
    (([Real.exp (-1), 1, Real.exp 1] : List ℝ).reverse.map
      (fun kk => Real.exp 0 / kk)).length = 3 ∧
    (([Real.exp (-1), 1, Real.exp 1] : List ℝ).reverse.map
      (fun kk => Real.exp 0 / kk)).Chain' (· < ·) ∧
    (([Real.exp (-1), 1, Real.exp 1] : List ℝ).reverse.map
      (fun kk => Real.exp 0 / kk)).getD 0 0 *
      ([Real.exp (-1), 1, Real.exp 1] : List ℝ).getD 2 0 = Real.exp 0 := by
  have hok : sigma2post Utophat [Real.exp (-1), 1, Real.exp 1] [1, 1, 1] 0 0 1 false false =
      Except.ok
        (([Real.exp (-1), 1, Real.exp 1] : List ℝ).reverse.map (fun kk => Real.exp 0 / kk),
          List.zipWith (fun s rr => s / (2 * PI ^ 2) / rr ^ (1 + (0:ℝ)))
            ((irfft (List.zipWith (· * ·)
                (rfft (List.zipWith (fun p kk => p * kk ^ (2 - (0:ℝ)))
                  ([1, 1, 1] : List ℝ) [Real.exp (-1), 1, Real.exp 1]))
                (fixNyquist ([Real.exp (-1), 1, Real.exp 1] : List ℝ).length
                  (transformU Utophat 0 0 1 ([Real.exp (-1), 1, Real.exp 1] : List ℝ).length)))
              ([Real.exp (-1), 1, Real.exp 1] : List ℝ).length).reverse)
            (([Real.exp (-1), 1, Real.exp 1] : List ℝ).reverse.map
              (fun kk => Real.exp 0 / kk)),
          none) := by
    simp only [sigma2post]
    split
    · rename_i hcond2
      exact absurd hcond2 (by simp)
    · rfl
  have main := claim_C3_output.1 Utophat [Real.exp (-1), 1, Real.exp 1] [1, 1, 1] 0 0 1
    false false _ _ none hok
  have hchain : ([Real.exp (-1), 1, Real.exp 1] : List ℝ).Chain' (· < ·) := by
    simp only [List.chain'_cons, List.chain'_singleton, and_true]
    constructor
    · calc Real.exp (-1) < Real.exp 0 := Real.exp_lt_exp.mpr (by norm_num)
        _ = 1 := Real.exp_zero
    · calc (1:ℝ) = Real.exp 0 := Real.exp_zero.symm
        _ < Real.exp 1 := Real.exp_lt_exp.mpr (by norm_num)
  have hpos : ∀ a ∈ ([Real.exp (-1), 1, Real.exp 1] : List ℝ), 0 < a := by
    intro a ha
    simp only [List.mem_cons, List.not_mem_nil, or_false] at ha
    rcases ha with rfl | rfl | rfl
    · exact Real.exp_pos _
    · norm_num
    · exact Real.exp_pos _
  refine ⟨hok, by simp [main.2.2.1], main.2.2.2.2.2 hchain hpos, ?_⟩
  have hprod := main.2.2.2.2.1 0 (by norm_num) (by simp [Real.exp_ne_zero])
  simpa using hprod

end Cosmo

end
